import Mathlib

/-!
Verification of the polite web-crawling engine (tools/crawler) against its
specification.  The Python source is shallowly embedded: pure helpers become
Lean functions, the mutable crawl loop becomes explicit state passing, and the
boundaries to external libraries (`requests`, BeautifulSoup, the robots.txt
rule matcher, `urljoin`) are modelled as oracle parameters bundled in an
environment record.  Ghost fields (`fetchLog`, `enqLog`, `iter`) record,
without influencing, which page GET requests were issued, which URLs were
enqueued, and how many loop iterations ran (the wall-clock guard is an oracle
over the iteration counter).
-/

/-! ### Python string helpers -/

/-- Models Python `str.lower()` for the ASCII range (all inputs of interest
are ASCII). -/
def pyLower (s : String) : String := (s.toList.map Char.toLower).asString

/-- `pre` is a prefix of `s` (models Python `str.startswith` / slicing
comparisons such as `url[:2] == "//"`). -/
def strStartsWith (s pre : String) : Bool := pre.toList.isPrefixOf s.toList

/-- Character-list substring occurrence test. -/
def listContainsSub (sub : List Char) : List Char → Bool
  | [] => sub.isEmpty
  | a :: rest => sub.isPrefixOf (a :: rest) || listContainsSub sub rest

/-- Models the Python substring test `sub in s`. -/
def strContainsSub (s sub : String) : Bool := listContainsSub sub.toList s.toList

/-- Python's whitespace set for `str.strip()` / `str.split()`. -/
def pyIsSpace (c : Char) : Bool :=
  c = ' ' || c = '\t' || c = '\n' || c = '\x0d' || c = '\x0b' || c = '\x0c'

/-- Models Python `str.strip()` (no argument: strip whitespace). -/
def pyStrip (s : String) : String :=
  (((s.toList.dropWhile pyIsSpace).reverse.dropWhile pyIsSpace).reverse).asString

/-- Models Python `str.rstrip()` on a character list. -/
def pyRstripList (cs : List Char) : List Char :=
  (cs.reverse.dropWhile pyIsSpace).reverse

/-- Split a character list at the first occurrence of `c`; `none` if absent.
Models Python `str.find(c)` + slicing. -/
def splitFirst (c : Char) : List Char → Option (List Char × List Char)
  | [] => none
  | a :: rest =>
    if a = c then some ([], rest)
    else (splitFirst c rest).map (fun p => (a :: p.1, p.2))

/-- Split a character list at the last occurrence of `'/'`
(`(before, after)`, the slash itself dropped); `none` if there is no slash.
Models Python `str.rfind('/')` + slicing. -/
def splitLastSlash : List Char → Option (List Char × List Char)
  | [] => none
  | a :: rest =>
    match splitLastSlash rest with
    | some (b, aft) => some (a :: b, aft)
    | none => if a = '/' then some ([], rest) else none

/-! ### Model of `urllib.parse` (CPython 3.11 stdlib, an external collaborator
of the crawler).  Only the code paths exercised by `url_utils.py`, `robots.py`
and `crawl.py` are modelled; the NFKC netloc check (`_checknetloc`), which can
only reject non-ASCII netlocs, is omitted. -/

/-- `scheme_chars` from `urllib.parse`. -/
def isSchemeChar (c : Char) : Bool :=
  c.isAlpha || c.isDigit || c = '+' || c = '-' || c = '.'

/-- The scheme-extraction step of `urlsplit`: if the text before the first
`':'` is nonempty, starts with an ASCII letter and consists of scheme
characters, it is the (lowercased) scheme. -/
def splitScheme (cs : List Char) : List Char × List Char :=
  match splitFirst ':' cs with
  | none => ([], cs)
  | some (pre, post) =>
    match pre with
    | [] => ([], cs)
    | c0 :: _ =>
      if c0.toNat ≤ 127 ∧ c0.isAlpha ∧ pre.all isSchemeChar then
        (pre.map Char.toLower, post)
      else ([], cs)

/-- `_splitnetloc`: the netloc runs to the first of `'/'`, `'?'`, `'#'`.
Returns `(netloc, rest-including-delimiter)`. -/
def takeNetloc : List Char → List Char × List Char
  | [] => ([], [])
  | a :: rest =>
    if a = '/' ∨ a = '?' ∨ a = '#' then ([], a :: rest)
    else
      let p := takeNetloc rest
      (a :: p.1, p.2)

/-- Result record of `urllib.parse.urlsplit`. -/
structure SplitResult where
  scheme : String
  netloc : String
  path : String
  query : String
  fragment : String
deriving DecidableEq, Repr

/-- Models `urllib.parse.urlsplit` (with `allow_fragments=True`); `none`
models the `ValueError` raised for a bracket-unbalanced (IPv6-like) netloc. -/
def urlsplitModel (url : String) : Option SplitResult :=
  let cs := url.toList.filter (fun c => ¬(c = '\t' ∨ c = '\r' ∨ c = '\n'))
  let sp := splitScheme cs
  let sch := sp.1
  let np :=
    match sp.2 with
    | '/' :: '/' :: rest => takeNetloc rest
    | other => ([], other)
  let netloc := np.1
  if (netloc.contains '[' && !netloc.contains ']') ||
     (netloc.contains ']' && !netloc.contains '[') then none
  else
    let fr := match splitFirst '#' np.2 with
      | some p => p
      | none => (np.2, [])
    let qu := match splitFirst '?' fr.1 with
      | some p => p
      | none => (fr.1, [])
    some ⟨sch.asString, netloc.asString, qu.1.asString, qu.2.asString, fr.2.asString⟩

/-- `uses_params` from `urllib.parse`. -/
def usesParams : List String :=
  ["", "ftp", "hdl", "prospero", "http", "imap", "https", "shttp", "rtsp",
   "rtspu", "sip", "sips", "mms", "sftp", "tel"]

/-- `uses_netloc` from `urllib.parse`. -/
def usesNetloc : List String :=
  ["", "ftp", "http", "gopher", "nntp", "telnet", "imap", "wais", "file",
   "mms", "https", "shttp", "snews", "prospero", "rtsp", "rtspu", "rsync",
   "svn", "svn+ssh", "sftp", "nfs", "git", "git+ssh", "ws", "wss"]

/-- Result record of `urllib.parse.urlparse`. -/
structure ParseResult where
  scheme : String
  netloc : String
  path : String
  params : String
  query : String
  fragment : String
deriving DecidableEq, Repr

instance : Inhabited ParseResult := ⟨⟨"", "", "", "", "", ""⟩⟩

/-- `_splitparams`: split path parameters off the last path segment. -/
def splitparams (path : List Char) : List Char × List Char :=
  match splitLastSlash path with
  | some (before, seg) =>
    match splitFirst ';' seg with
    | some (s1, s2) => (before ++ '/' :: s1, s2)
    | none => (path, [])
  | none =>
    match splitFirst ';' path with
    | some (s1, s2) => (s1, s2)
    | none => (path, [])

/-- Models `urllib.parse.urlparse`. -/
def urlparseModel (url : String) : Option ParseResult :=
  (urlsplitModel url).map fun s =>
    if s.scheme ∈ usesParams ∧ s.path.toList.contains ';' then
      let p := splitparams s.path.toList
      ⟨s.scheme, s.netloc, p.1.asString, p.2.asString, s.query, s.fragment⟩
    else ⟨s.scheme, s.netloc, s.path, "", s.query, s.fragment⟩

/-- Models `urllib.parse.urlunsplit`. -/
def urlunsplitModel (scheme netloc path query fragment : String) : String :=
  let url := path
  let url :=
    if netloc ≠ "" ∨ (scheme ≠ "" ∧ scheme ∈ usesNetloc ∧ strStartsWith url "//" = false) then
      let url := if url ≠ "" ∧ strStartsWith url "/" = false then "/" ++ url else url
      "//" ++ netloc ++ url
    else url
  let url := if scheme ≠ "" then scheme ++ ":" ++ url else url
  let url := if query ≠ "" then url ++ "?" ++ query else url
  if fragment ≠ "" then url ++ "#" ++ fragment else url

/-- Models `urllib.parse.urlunparse`. -/
def urlunparseModel (r : ParseResult) : String :=
  urlunsplitModel r.scheme r.netloc
    (if r.params ≠ "" then r.path ++ ";" ++ r.params else r.path) r.query r.fragment

/-! ### `tools/crawler/url_utils.py` -/

/-- Models `str.rstrip("/")`: drop all trailing slashes. -/
def rstripSlashes (s : String) : String :=
  ((s.toList.reverse.dropWhile (fun c => c = '/')).reverse).asString

/-- `normalize_url` from `tools/crawler/url_utils.py`.  `join` is an oracle
for `urllib.parse.urljoin` (only invoked when a truthy base is given, exactly
as in the source).  Returns `none` where the source returns `None`:
un-parseable URL or a scheme other than http/https. -/
def normalize_url (join : String → String → String) (url : String)
    (base : Option String) : Option String :=
  let url :=
    match base with
    | some b => if b ≠ "" then join b url else url
    | none => url
  match urlparseModel url with
  | none => none
  | some p =>
    if ¬(p.scheme = "http" ∨ p.scheme = "https") then none
    else
      let netloc := pyLower p.netloc
      let path0 := rstripSlashes p.path
      let path := if path0 = "" then "/" else path0
      some (urlunparseModel ⟨pyLower p.scheme, netloc, path, p.params, p.query, ""⟩)

/-- `allow_domain` from `tools/crawler/url_utils.py`.  `none` and the empty
list both model falsy `allowed_origins` (allow all).  A URL that fails to
parse would raise in Python; every URL reaching this function in the crawler
is a `normalize_url` output, which parses, so the `getD` default is inert. -/
def allow_domain (url : String) (allowed_origins : Option (List String)) : Bool :=
  match allowed_origins with
  | none => true
  | some l =>
    if l = [] then true
    else
      let p := (urlparseModel url).getD default
      let origin :=
        pyLower (if p.scheme = "" then "https" else p.scheme) ++ "://" ++ pyLower p.netloc
      l.contains origin


/-! ### `app/core/config.py` (Settings), crawler-relevant properties.
Environment values are modelled as already-parsed numbers: an integer for the
`int(os.getenv(...))` reads (an unparsable value would raise there), and an
optional rational for `CRAWL_REQUEST_DELAY`, where `none` models a string that
fails `float()` (the `except ValueError` branch). -/

/-- Python `max` on two ints (returns the second argument only when strictly
greater). -/
def pyMaxInt (a b : Int) : Int := if a < b then b else a

/-- Python `min` on two ints. -/
def pyMinInt (a b : Int) : Int := if b < a then b else a

/-- Python `max` on two floats, modelled exactly on ℚ. -/
def pyMaxRat (a b : ℚ) : ℚ := if a < b then b else a

/-- Python `min` on two floats, modelled exactly on ℚ. -/
def pyMinRat (a b : ℚ) : ℚ := if b < a then b else a

/-- The crawler-relevant slice of `Settings`, holding the raw environment
values (defaults: 50 / 3 / 60 / 1.0). -/
structure Settings where
  crawlMaxPagesEnv : Int := 50
  crawlMaxDepthEnv : Int := 3
  crawlTimeoutEnv : Int := 60
  crawlDelayEnv : Option ℚ := some 1

/-- `Settings.crawl_max_pages`: `max(1, min(500, int(...)))`. -/
def Settings.crawl_max_pages (s : Settings) : Int :=
  pyMaxInt 1 (pyMinInt 500 s.crawlMaxPagesEnv)

/-- `Settings.crawl_max_depth`: `max(1, min(20, int(...)))`. -/
def Settings.crawl_max_depth (s : Settings) : Int :=
  pyMaxInt 1 (pyMinInt 20 s.crawlMaxDepthEnv)

/-- `Settings.crawl_timeout_seconds`: `max(5, min(300, int(...)))`. -/
def Settings.crawl_timeout_seconds (s : Settings) : Int :=
  pyMaxInt 5 (pyMinInt 300 s.crawlTimeoutEnv)

/-- `Settings.crawl_request_delay_seconds`: `max(0.0, min(10.0, float(raw)))`,
falling back to `1.0` when `float(raw)` raises. -/
def Settings.crawl_request_delay_seconds (s : Settings) : ℚ :=
  match s.crawlDelayEnv with
  | none => 1
  | some q => pyMaxRat 0 (pyMinRat 10 q)

/-- A `Settings` with every crawler environment variable unset
(the shipped defaults). -/
def defaultSettings : Settings := {}

/-! ### `tools/crawler/robots.py` and the stdlib `RobotFileParser` -/

/-- `CRAWLER_USER_AGENT` from `tools/crawler/robots.py`. -/
def CRAWLER_USER_AGENT : String := "CrawlBot/1.0 (+https://github.com/your-repo; polite crawler)"

/-- Model of `urllib.robotparser.RobotFileParser` state as used by
`robots.py` (which only ever calls `parse` and `can_fetch`, never `read`, so
`disallow_all`/`allow_all` stay `False`).  `last_checked` abstracts the
timestamp set by `parse` via `modified()` (`false` models the initial `0`).
`ruleAllows` abstracts the parsed entry list's matching: agent → url →
allowance; it is irrelevant (and unreachable from `can_fetch`) while
`last_checked` is false. -/
structure RobotFileParser where
  disallow_all : Bool
  allow_all : Bool
  last_checked : Bool
  ruleAllows : String → String → Bool

/-- A freshly constructed `RobotFileParser()`. -/
def RobotFileParser.init : RobotFileParser :=
  ⟨false, false, false, fun _ _ => true⟩

/-- `RobotFileParser.can_fetch` from the CPython 3.11 stdlib: `False` under
`disallow_all`, `True` under `allow_all`, and — crucially — `False` whenever
the parser has never been fed a file (`if not self.last_checked: return
False`); only then the parsed entries are consulted. -/
def RobotFileParser.can_fetch (rp : RobotFileParser) (useragent url : String) : Bool :=
  if rp.disallow_all then false
  else if rp.allow_all then true
  else if rp.last_checked = false then false
  else rp.ruleAllows useragent url

/-- `RobotFileParser.parse`: sets `last_checked` (via `modified()`) and
installs the matcher for the parsed lines.  `rules` is the oracle modelling
the stdlib line parser + entry matching, applied to the raw robots.txt
text. -/
def RobotFileParser.parse (rules : String → String → String → Bool)
    (text : String) (rp : RobotFileParser) : RobotFileParser :=
  { rp with last_checked := true, ruleAllows := rules text }

/-- `_origin` from `robots.py`: `f"{p.scheme or https}://{p.netloc}"`
(no lowercasing here). -/
def robotsOrigin (url : String) : String :=
  let p := (urlparseModel url).getD default
  (if p.scheme = "" then "https" else p.scheme) ++ "://" ++ p.netloc

/-- The oracles for everything outside the crawler package: `requests.get`
for pages and for robots.txt (where `none` models a raised request
exception), the stdlib robots.txt line parser/matcher, BeautifulSoup-based
`parse_html` (`Except.error` models a raised exception, carrying `str(e)`),
`urllib.parse.urljoin`, and the monotonic wall clock (`timeOk k` models
`time.monotonic() - start < timeout_seconds` at the k-th loop test). -/
structure ParsedPage where
  title : String
  description : String
  text : String
  links : List String

structure CrawlEnv where
  pageGet : String → Nat → Option (Nat × String × String)
  robotsGet : String → String → Nat → Option (Nat × String)
  robotsRules : String → String → String → Bool
  parseHtml : String → String → Except String ParsedPage
  urljoin : String → String → String
  timeOk : Nat → Bool

/-- `_robots_url` from `robots.py`: `urljoin(origin, "/robots.txt")`. -/
def robots_url (env : CrawlEnv) (origin : String) : String :=
  env.urljoin origin "/robots.txt"

/-- `can_fetch` from `robots.py`.  The module-global `_robots_cache` is
threaded explicitly as an association list keyed by origin.  On a cache miss
the robots.txt for the origin is fetched: a 200 response is parsed, any other
status or a raised exception leaves the parser in its freshly-constructed
state (the source's comment says "404 or other: no robots.txt → allow all",
but nothing marks the parser as checked).  The final stdlib `can_fetch` call
cannot raise in this model, so the source's trailing `except: return True` has
no counterpart. -/
def can_fetch (env : CrawlEnv) (cache : List (String × RobotFileParser))
    (url : String) (user_agent : String) (timeout : Nat) :
    Bool × List (String × RobotFileParser) :=
  let origin := robotsOrigin url
  let cache :=
    if (cache.lookup origin).isSome then cache
    else
      let rp := RobotFileParser.init
      let rp :=
        match env.robotsGet (robots_url env origin) user_agent timeout with
        | some (status, text) =>
          if status = 200 then rp.parse env.robotsRules text else rp
        | none => rp
      (origin, rp) :: cache
  match cache.lookup origin with
  | some rp => (rp.can_fetch user_agent url, cache)
  | none => (true, cache)

/-! ### `tools/crawler/fetch.py` -/

/-- The network part of `fetch` (after the robots gate): issue the GET —
recording the URL in the ghost log — and gate the body on an HTML
content-type.  `Except.error` models a propagated `requests.RequestException`.
Returns (result, cache, issued page GETs). -/
def fetchGet (env : CrawlEnv) (cache : List (String × RobotFileParser))
    (url : String) (timeout : Nat) :
    Except Unit (Nat × String × String) × List (String × RobotFileParser) × List String :=
  match env.pageGet url timeout with
  | none => (Except.error (), cache, [url])
  | some (status, ctHeader, text) =>
    let ct0 :=
      match splitFirst ';' ctHeader.toList with
      | some p => p.1
      | none => ctHeader.toList
    let ct := pyLower (pyStrip ct0.asString)
    if strContainsSub ct "text/html" = false ∧ strContainsSub ct "application/xhtml" = false then
      (Except.ok (status, ct, ""), cache, [url])
    else
      (Except.ok (status, ct, text), cache, [url])

/-- `fetch` from `tools/crawler/fetch.py`: when `check_robots` is set and the
robots policy denies the URL, return the `(0, "", "")` sentinel without any
page GET; otherwise GET the URL. -/
def fetch (env : CrawlEnv) (cache : List (String × RobotFileParser))
    (url : String) (timeout : Nat) (check_robots : Bool) (user_agent : String) :
    Except Unit (Nat × String × String) × List (String × RobotFileParser) × List String :=
  if check_robots then
    let cf := can_fetch env cache url user_agent (pyMinInt 10 timeout).toNat
    if cf.1 = false then (Except.ok (0, "", ""), cf.2, [])
    else fetchGet env cf.2 url timeout
  else fetchGet env cache url timeout

/-! ### `tools/crawler/crawl.py` -/

/-- `CrawlResult` from `tools/crawler/crawl.py`. -/
structure CrawlResult where
  url : String
  depth : Nat
  title : String
  description : String
  snippet : String
  status_code : Nat
  links_found : Nat
deriving DecidableEq, Repr

/-- `s.rsplit(maxsplit=1)[0]` for the use in `_snippet`, where `s` is a slice
of a stripped string and hence starts with a non-whitespace character:
everything before the last whitespace run (the whole trimmed string when it
contains no whitespace). -/
def pyRsplitHead (s : String) : String :=
  let y := pyRstripList s.toList
  if y.any pyIsSpace then
    (((y.reverse.dropWhile (fun c => !pyIsSpace c)).dropWhile pyIsSpace).reverse).asString
  else y.asString

/-- `_snippet` from `tools/crawler/crawl.py`: strip, return unchanged when
within `max_len`, else cut to `max_len - 3`, drop the final partial word and
append an ellipsis. -/
def crawlSnippet (text : String) (max_len : Nat) : String :=
  let t := pyStrip text
  if t.length ≤ max_len then t
  else pyRsplitHead ((t.toList.take (max_len - 3)).asString) ++ "..."

/-- The per-run configuration of `run_crawl` after the defaults are resolved:
the four limits, the origin policy inputs, and the seed origins collected
while the queue was seeded.  `fetch_timeout` is `min(15, timeout_seconds //
3)` computed before the loop. -/
structure CrawlCfg where
  max_pages : Nat
  max_depth : Nat
  timeout_seconds : Nat
  fetch_timeout : Nat
  same_origin_only : Bool
  allowed_origins : Option (List String)
  request_delay : ℚ
  seed_origins : List String

/-- The mutable state of one `run_crawl` invocation: the FIFO frontier
`queue`, the visited-set `seen`, the accumulated `results`, and the
module-global robots cache threaded through `fetch`.  `fetchLog` (ghost)
records every URL for which `requests.get` was reached, `enqLog` (ghost)
records every URL appended to the queue (seeds included), and `iter` (ghost)
counts loop iterations for the wall-clock oracle. -/
structure CrawlState where
  queue : List (String × Nat)
  seen : List String
  results : List CrawlResult
  rcache : List (String × RobotFileParser)
  fetchLog : List String
  enqLog : List String
  iter : Nat

/-- `effective_allowed` as computed at the top of each loop iteration:
`seed_origins if same_origin_only else allowed_origins`. -/
def effectiveAllowed (cfg : CrawlCfg) : Option (List String) :=
  if cfg.same_origin_only then some cfg.seed_origins else cfg.allowed_origins

/-- Python `set.add` on the list model (no duplicate insertion). -/
def setAdd (l : List String) (x : String) : List String :=
  if x ∈ l then l else l ++ [x]

/-- The seed loop of `run_crawl`: normalize each seed, drop falsy or
already-seen ones, else add to `seen`, append `(url, 0)` to the queue, and
record the seed's origin (lowercased `f"{scheme}://{netloc}"`).
Accumulator: (queue, seen, seed_origins). -/
def initSeeds (env : CrawlEnv) :
    List String → List (String × Nat) × List String × List String →
    List (String × Nat) × List String × List String
  | [], acc => acc
  | u :: us, (queue, seen, origins) =>
    match normalize_url env.urljoin u none with
    | none => initSeeds env us (queue, seen, origins)
    | some n =>
      if n = "" ∨ n ∈ seen then initSeeds env us (queue, seen, origins)
      else
        let p := (urlparseModel n).getD default
        initSeeds env us (queue ++ [(n, 0)], seen ++ [n],
          setAdd origins (pyLower (p.scheme ++ "://" ++ p.netloc)))

/-- The link-enqueueing loop at the bottom of a successful iteration of
`run_crawl`: for each extracted link, normalize against the page URL; skip on
falsy normalization, on visited-set membership, or on origin denial;
otherwise add to the visited-set and enqueue at `depth + 1`. -/
def enqueueLinks (env : CrawlEnv) (cfg : CrawlCfg) (pageUrl : String) (depth : Nat) :
    List String → CrawlState → CrawlState
  | [], st => st
  | link :: links, st =>
    match normalize_url env.urljoin link (some pageUrl) with
    | none => enqueueLinks env cfg pageUrl depth links st
    | some n =>
      if n = "" ∨ n ∈ st.seen then enqueueLinks env cfg pageUrl depth links st
      else if allow_domain n (effectiveAllowed cfg) = false then
        enqueueLinks env cfg pageUrl depth links st
      else
        enqueueLinks env cfg pageUrl depth links
          { st with seen := st.seen ++ [n],
                    queue := st.queue ++ [(n, depth + 1)],
                    enqLog := st.enqLog ++ [n] }

/-- What `enqueueLinks` does to the state: it only appends to `queue`,
`seen` and `enqLog`, in lockstep — every appended queue entry sits at
`depth + 1`, was not previously in the visited-set, passed the origin filter,
and the appended URLs are pairwise distinct; everything else is untouched. -/
theorem enqueueLinks_spec (env : CrawlEnv) (cfg : CrawlCfg) (pageUrl : String)
    (depth : Nat) (ls : List String) (st : CrawlState) :
    ∃ news : List (String × Nat),
      (enqueueLinks env cfg pageUrl depth ls st).queue = st.queue ++ news ∧
      (enqueueLinks env cfg pageUrl depth ls st).seen = st.seen ++ news.map Prod.fst ∧
      (enqueueLinks env cfg pageUrl depth ls st).enqLog = st.enqLog ++ news.map Prod.fst ∧
      (news.map Prod.fst).Nodup ∧
      (∀ e ∈ news, e.2 = depth + 1 ∧ e.1 ∉ st.seen ∧
        allow_domain e.1 (effectiveAllowed cfg) = true) ∧
      (enqueueLinks env cfg pageUrl depth ls st).results = st.results ∧
      (enqueueLinks env cfg pageUrl depth ls st).fetchLog = st.fetchLog ∧
      (enqueueLinks env cfg pageUrl depth ls st).rcache = st.rcache ∧
      (enqueueLinks env cfg pageUrl depth ls st).iter = st.iter := by
  induction ls generalizing st with
  | nil => exact ⟨[], by simp [enqueueLinks]⟩
  | cons a ls ih =>
    cases hn : normalize_url env.urljoin a (some pageUrl) with
    | none => simpa [enqueueLinks, hn] using ih st
    | some n =>
      by_cases h1 : n = "" ∨ n ∈ st.seen
      · simpa [enqueueLinks, hn, if_pos h1] using ih st
      · by_cases h2 : allow_domain n (effectiveAllowed cfg) = false
        · simpa [enqueueLinks, hn, if_neg h1, if_pos h2] using ih st
        · have hbig := ih { st with seen := st.seen ++ [n], queue := st.queue ++ [(n, depth + 1)], enqLog := st.enqLog ++ [n] }
          rcases hbig with ⟨news1, hq, hs, hl, hnd, hmem, hr, hf, hc, hi⟩
          refine ⟨(n, depth + 1) :: news1, ?_⟩
          have heq : enqueueLinks env cfg pageUrl depth (a :: ls) st = enqueueLinks env cfg pageUrl depth ls { st with seen := st.seen ++ [n], queue := st.queue ++ [(n, depth + 1)], enqLog := st.enqLog ++ [n] } := by
            simp [enqueueLinks, hn, if_neg h1, if_neg h2]
          rw [heq]
          refine ⟨by simp [hq], by simp [hs], by simp [hl], ?_, ?_, by simp [hr], by simp [hf], by simp [hc], by simp [hi]⟩
          · simp only [List.map_cons]
            refine List.nodup_cons.mpr ⟨?_, hnd⟩
            intro hmemn
            rcases List.mem_map.mp hmemn with ⟨e, he, hfst⟩
            rcases hmem e he with ⟨-, hnotin, -⟩
            exact hnotin (by simp [hfst])
          · intro e he0
            rcases List.mem_cons.mp he0 with rfl | he
            · refine ⟨rfl, ?_, by simpa using h2⟩
              intro hmem2
              exact h1 (Or.inr hmem2)
            · rcases hmem e he with ⟨h3, h4, h5⟩
              refine ⟨h3, fun hx => h4 (by simp [hx]), h5⟩

/-- `enqueueLinks` never changes the accumulated results. -/
theorem enqueueLinks_results (env : CrawlEnv) (cfg : CrawlCfg) (pageUrl : String)
    (depth : Nat) (ls : List String) (st : CrawlState) :
    (enqueueLinks env cfg pageUrl depth ls st).results = st.results := by
  rcases enqueueLinks_spec env cfg pageUrl depth ls st with ⟨news, -, -, -, -, -, hr, -, -, -⟩
  exact hr

/-- `enqueueLinks` never changes the ghost fetch log. -/
theorem enqueueLinks_fetchLog (env : CrawlEnv) (cfg : CrawlCfg) (pageUrl : String)
    (depth : Nat) (ls : List String) (st : CrawlState) :
    (enqueueLinks env cfg pageUrl depth ls st).fetchLog = st.fetchLog := by
  rcases enqueueLinks_spec env cfg pageUrl depth ls st with ⟨news, -, -, -, -, -, -, hf, -, -⟩
  exact hf

/-- The body of one `run_crawl` loop iteration for a dequeued pair
`(url, depth)`; `st` is the state with that pair already popped (and the ghost
iteration counter advanced).  Branches in source order: depth check, origin
policy, politeness sleep (no observable effect), fetch (robots-gated; an
exception skips the entry), the non-200/empty-body result, the parse-failure
result, and finally the success result plus link enqueueing. -/
def crawlBody (env : CrawlEnv) (cfg : CrawlCfg) (url : String) (depth : Nat)
    (st : CrawlState) : CrawlState :=
  if cfg.max_depth < depth then st
  else if allow_domain url (effectiveAllowed cfg) = false then st
  else
    match fetch env st.rcache url cfg.fetch_timeout true CRAWLER_USER_AGENT with
    | (Except.error _, rc, lg) => { st with rcache := rc, fetchLog := st.fetchLog ++ lg }
    | (Except.ok (status, _ct, body), rc, lg) =>
      if status ≠ 200 ∨ body = "" then
        { st with rcache := rc, fetchLog := st.fetchLog ++ lg, results := st.results ++ [⟨url, depth, "", "", "[HTTP " ++ toString status ++ "]", status, 0⟩] }
      else
        match env.parseHtml body url with
        | Except.error e =>
          { st with rcache := rc, fetchLog := st.fetchLog ++ lg, results := st.results ++ [⟨url, depth, "", "", (e.toList.take 200).asString, status, 0⟩] }
        | Except.ok parsed =>
          enqueueLinks env cfg url depth parsed.links { st with rcache := rc, fetchLog := st.fetchLog ++ lg, results := st.results ++ [⟨url, depth, parsed.title, parsed.description, crawlSnippet (if parsed.description = "" then parsed.text else parsed.description) 300, status, parsed.links.length⟩] }

/-- Each loop body either leaves `results` and `queue` untouched (a skipped
entry) or appends exactly one result. -/
theorem crawlBody_measure (env : CrawlEnv) (cfg : CrawlCfg) (url : String)
    (depth : Nat) (st : CrawlState) :
    ((crawlBody env cfg url depth st).results = st.results ∧
     (crawlBody env cfg url depth st).queue = st.queue) ∨
    (crawlBody env cfg url depth st).results.length = st.results.length + 1 := by
  unfold crawlBody
  split
  · exact Or.inl ⟨rfl, rfl⟩
  split
  · exact Or.inl ⟨rfl, rfl⟩
  split
  · exact Or.inl ⟨rfl, rfl⟩
  split
  · right; simp
  split
  · right; simp
  · rw [enqueueLinks_results]
    right; simp

/-- The crawl loop of `run_crawl`: while the frontier is non-empty, the page
budget has room and the wall clock has not expired, pop the head of the FIFO
queue (`popleft`) and run the body.  Terminates because every iteration
either appends a result (bounded by `max_pages`) or shrinks the queue. -/
def crawlLoop (env : CrawlEnv) (cfg : CrawlCfg) (st : CrawlState) : CrawlState :=
  if st.queue = [] then st
  else if cfg.max_pages ≤ st.results.length then st
  else if env.timeOk st.iter = false then st
  else crawlLoop env cfg (crawlBody env cfg (st.queue.headD ("", 0)).1 (st.queue.headD ("", 0)).2 { st with queue := st.queue.tail, iter := st.iter + 1 })
termination_by (cfg.max_pages - st.results.length, st.queue.length)
decreasing_by
  rename_i hq hp ht
  rcases crawlBody_measure env cfg (st.queue.headD ("", 0)).1 (st.queue.headD ("", 0)).2 { st with queue := st.queue.tail, iter := st.iter + 1 } with ⟨h1, h2⟩ | h1
  · apply Prod.Lex.right'
    · have hres : (crawlBody env cfg (st.queue.headD ("", 0)).1 (st.queue.headD ("", 0)).2 { st with queue := st.queue.tail, iter := st.iter + 1 }).results.length = st.results.length := by rw [h1]
      omega
    · have hqd : (crawlBody env cfg (st.queue.headD ("", 0)).1 (st.queue.headD ("", 0)).2 { st with queue := st.queue.tail, iter := st.iter + 1 }).queue.length = st.queue.tail.length := by rw [h2]
      have hnz : st.queue.length ≠ 0 := fun hlen => hq (List.eq_nil_of_length_eq_zero hlen)
      have htl : st.queue.tail.length = st.queue.length - 1 := List.length_tail _
      omega
  · apply Prod.Lex.left
    have hres2 : (crawlBody env cfg (st.queue.headD ("", 0)).1 (st.queue.headD ("", 0)).2 { st with queue := st.queue.tail, iter := st.iter + 1 }).results.length = st.results.length + 1 := by rw [h1]
    omega

/-- Fuel-indexed version of `crawlLoop`, used to evaluate concrete runs (the
two agree once the fuel suffices, `crawlLoop_eq_ofF`). -/
def crawlLoopF (env : CrawlEnv) (cfg : CrawlCfg) : Nat → CrawlState → CrawlState
  | 0, st => st
  | fuel + 1, st =>
    if st.queue = [] then st
    else if cfg.max_pages ≤ st.results.length then st
    else if env.timeOk st.iter = false then st
    else crawlLoopF env cfg fuel (crawlBody env cfg (st.queue.headD ("", 0)).1 (st.queue.headD ("", 0)).2 { st with queue := st.queue.tail, iter := st.iter + 1 })

/-- If the fuelled loop reaches a state where a loop guard fails, it computed
the well-founded loop's value. -/
theorem crawlLoop_eq_ofF (env : CrawlEnv) (cfg : CrawlCfg) (fuel : Nat) (st : CrawlState)
    (hdone : (crawlLoopF env cfg fuel st).queue = [] ∨
      cfg.max_pages ≤ (crawlLoopF env cfg fuel st).results.length ∨
      env.timeOk (crawlLoopF env cfg fuel st).iter = false) :
    crawlLoop env cfg st = crawlLoopF env cfg fuel st := by
  induction fuel generalizing st with
  | zero =>
    simp only [crawlLoopF] at hdone ⊢
    rw [crawlLoop.eq_def]
    rcases hdone with h | h | h
    · simp [h]
    · by_cases hq : st.queue = []
      · simp [hq]
      · simp [hq, h]
    · by_cases hq : st.queue = []
      · simp [hq]
      · by_cases hp : cfg.max_pages ≤ st.results.length
        · simp [hq, hp]
        · simp [hq, hp, h]
  | succ n ih =>
    rw [crawlLoop.eq_def]
    simp only [crawlLoopF] at hdone ⊢
    by_cases hq : st.queue = []
    · simp [hq]
    · by_cases hp : cfg.max_pages ≤ st.results.length
      · simp [hq, hp]
      · by_cases ht : env.timeOk st.iter = false
        · simp [hq, hp, ht]
        · simp only [if_neg hq, if_neg hp, if_neg ht] at hdone ⊢
          exact ih _ hdone

/-- `run_crawl` from `tools/crawler/crawl.py`, returning the full final state
plus the resolved configuration.  `rcache0` is the content of the
module-global `_robots_cache` when the run starts.  Unset limits fall back to
the (bounded) `Settings` values exactly as in the source. -/
def run_crawlS (env : CrawlEnv) (settings : Settings)
    (rcache0 : List (String × RobotFileParser)) (seed_urls : List String)
    (max_pages : Option Nat) (max_depth : Option Nat) (timeout_seconds : Option Nat)
    (same_origin_only : Bool) (allowed_origins : Option (List String))
    (request_delay : Option ℚ) : CrawlState × CrawlCfg :=
  let mp := max_pages.getD settings.crawl_max_pages.toNat
  let md := max_depth.getD settings.crawl_max_depth.toNat
  let ts := timeout_seconds.getD settings.crawl_timeout_seconds.toNat
  let rd := request_delay.getD settings.crawl_request_delay_seconds
  let init := initSeeds env seed_urls ([], [], [])
  let cfg : CrawlCfg :=
    { max_pages := mp, max_depth := md, timeout_seconds := ts,
      fetch_timeout := (pyMinInt 15 (ts / 3 : Nat)).toNat,
      same_origin_only := same_origin_only, allowed_origins := allowed_origins,
      request_delay := rd, seed_origins := init.2.2 }
  (crawlLoop env cfg
    { queue := init.1, seen := init.2.1, results := [], rcache := rcache0,
      fetchLog := [], enqLog := init.2.1, iter := 0 }, cfg)

/-- The observable return value of `run_crawl`: the accumulated result
list. -/
def run_crawl (env : CrawlEnv) (settings : Settings)
    (rcache0 : List (String × RobotFileParser)) (seed_urls : List String)
    (max_pages : Option Nat) (max_depth : Option Nat) (timeout_seconds : Option Nat)
    (same_origin_only : Bool) (allowed_origins : Option (List String))
    (request_delay : Option ℚ) : List CrawlResult :=
  (run_crawlS env settings rcache0 seed_urls max_pages max_depth timeout_seconds
    same_origin_only allowed_origins request_delay).1.results

/-! ### `tools/crawler/__init__.py` (the `crawl_website` tool) -/

/-- Accumulator-based splitter behind `pySplitWs` (the accumulator holds the
current word, reversed). -/
def pySplitWsAux : List Char → List Char → List (List Char)
  | [], acc => if acc.isEmpty then [] else [acc.reverse]
  | c :: cs, acc =>
    if pyIsSpace c then
      if acc.isEmpty then pySplitWsAux cs [] else acc.reverse :: pySplitWsAux cs []
    else pySplitWsAux cs (c :: acc)

/-- Models Python `str.split()` (no separator: maximal non-whitespace runs,
no empty pieces). -/
def pySplitWs (cs : List Char) : List (List Char) := pySplitWsAux cs []

/-- The seed tokenisation of `crawl_website`:
`[u.strip() for u in seed_urls.replace(",", "\n").split() if u.strip()]`. -/
def splitSeeds (seed_urls : String) : List String :=
  ((pySplitWs (seed_urls.toList.map (fun c => if c = ',' then '\n' else c))).map
    (fun w => pyStrip w.asString)).filter (fun u => u ≠ "")

/-- The per-result lines of `_format_crawl_results` (index is 0-based as from
`enumerate`). -/
def formatResultLines (rs : List (Nat × CrawlResult)) : List String :=
  (rs.map (fun p =>
    ["\n[" ++ toString (p.1 + 1) ++ "] " ++ p.2.url ++ " (depth=" ++ toString p.2.depth ++
      ", status=" ++ toString p.2.status_code ++ ")"]
    ++ (if p.2.title ≠ "" then ["  Title: " ++ p.2.title] else [])
    ++ (if p.2.snippet ≠ "" then ["  Snippet: " ++ (p.2.snippet.toList.take 400).asString] else []))).flatten

/-- `_format_crawl_results` from `tools/crawler/__init__.py`. -/
def format_crawl_results (results : List CrawlResult) (max_snippets : Nat) : String :=
  let lines := ["Crawled " ++ toString results.length ++ " page(s)."]
    ++ formatResultLines (results.take max_snippets).enum
    ++ (if max_snippets < results.length then
          ["\n... and " ++ toString (results.length - max_snippets) ++ " more."] else [])
  "\n".intercalate lines

/-- The effective max-pages limit used by `crawl_website`:
`max_pages if max_pages > 0 else settings.crawl_max_pages`. -/
def crawl_website_max_pages (settings : Settings) (max_pages : Int) : Int :=
  if 0 < max_pages then max_pages else settings.crawl_max_pages

/-- The effective max-depth limit used by `crawl_website`:
`max_depth if max_depth > 0 else settings.crawl_max_depth`. -/
def crawl_website_max_depth (settings : Settings) (max_depth : Int) : Int :=
  if 0 < max_depth then max_depth else settings.crawl_max_depth

/-- `crawl_website` from `tools/crawler/__init__.py`: tokenize the seed
string; with no tokens return the fixed rejection message without calling
`run_crawl`; otherwise run the crawl with the effective limits and format the
result list.  The source's catch-all `except` around `run_crawl` has no
counterpart because the model cannot raise. -/
def crawl_website (env : CrawlEnv) (settings : Settings)
    (rcache0 : List (String × RobotFileParser)) (seed_urls : String)
    (max_pages : Int) (max_depth : Int) (same_origin_only : Bool) : String :=
  let urls := splitSeeds seed_urls
  if urls = [] then "No valid seed URLs provided. Example: https://example.com"
  else
    format_crawl_results
      (run_crawl env settings rcache0 urls
        (some (crawl_website_max_pages settings max_pages).toNat)
        (some (crawl_website_max_depth settings max_depth).toNat)
        none same_origin_only none none) 20

/-- Any property preserved by one loop body (under the loop guards) holds of
the loop's final state. -/
theorem crawlLoop_preserves (env : CrawlEnv) (cfg : CrawlCfg) (P : CrawlState → Prop)
    (hbody : ∀ st : CrawlState, st.queue ≠ [] → ¬(cfg.max_pages ≤ st.results.length) →
      P st → P (crawlBody env cfg (st.queue.headD ("", 0)).1 (st.queue.headD ("", 0)).2 { st with queue := st.queue.tail, iter := st.iter + 1 })) :
    ∀ st, P st → P (crawlLoop env cfg st) := by
  intro st h
  induction st using crawlLoop.induct env cfg with
  | case1 st hq =>
    rw [crawlLoop.eq_def, if_pos hq]
    exact h
  | case2 st hq hp =>
    rw [crawlLoop.eq_def, if_neg hq, if_pos hp]
    exact h
  | case3 st hq hp ht =>
    rw [crawlLoop.eq_def, if_neg hq, if_neg hp, if_pos ht]
    exact h
  | case4 st hq hp ht ih =>
    rw [crawlLoop.eq_def, if_neg hq, if_neg hp, if_neg ht]
    exact ih (hbody st hq hp h)

/-- What one loop body does to the state, in full: it appends at most one
result (carrying the dequeued URL and depth, and only past the depth and
origin gates) and appends frontier entries/visited-set members only through
`enqueueLinks` (at `depth + 1`, unseen, origin-allowed, pairwise distinct);
frontier entries are only added when a result was also added. -/
theorem crawlBody_spec (env : CrawlEnv) (cfg : CrawlCfg) (url : String) (depth : Nat)
    (st : CrawlState) :
    ∃ added : List CrawlResult, ∃ news : List (String × Nat),
      (crawlBody env cfg url depth st).results = st.results ++ added ∧
      (crawlBody env cfg url depth st).queue = st.queue ++ news ∧
      (crawlBody env cfg url depth st).seen = st.seen ++ news.map Prod.fst ∧
      (crawlBody env cfg url depth st).enqLog = st.enqLog ++ news.map Prod.fst ∧
      added.length ≤ 1 ∧
      (∀ r ∈ added, r.url = url ∧ r.depth = depth ∧ depth ≤ cfg.max_depth ∧
        allow_domain url (effectiveAllowed cfg) = true) ∧
      (news ≠ [] → added ≠ []) ∧
      (news.map Prod.fst).Nodup ∧
      (∀ e ∈ news, e.2 = depth + 1 ∧ e.1 ∉ st.seen ∧
        allow_domain e.1 (effectiveAllowed cfg) = true) := by
  unfold crawlBody
  split
  · exact ⟨[], [], by simp⟩
  split
  · exact ⟨[], [], by simp⟩
  rename_i hdep hallow
  have hdep2 : depth ≤ cfg.max_depth := Nat.le_of_not_lt hdep
  have hallow2 : allow_domain url (effectiveAllowed cfg) = true := by
    cases hx : allow_domain url (effectiveAllowed cfg)
    · exact absurd hx hallow
    · rfl
  split
  · exact ⟨[], [], by simp⟩
  rename_i status ct body rc lg heq
  split
  · refine ⟨[⟨url, depth, "", "", "[HTTP " ++ toString status ++ "]", status, 0⟩], [], by simp, by simp, by simp, by simp, by simp, ?_, by simp, by simp, by simp⟩
    intro r hr
    rcases List.mem_singleton.mp hr with rfl
    exact ⟨rfl, rfl, hdep2, hallow2⟩
  split
  · rename_i e heq2
    refine ⟨[⟨url, depth, "", "", (e.toList.take 200).asString, status, 0⟩], [], by simp, by simp, by simp, by simp, by simp, ?_, by simp, by simp, by simp⟩
    intro r hr
    rcases List.mem_singleton.mp hr with rfl
    exact ⟨rfl, rfl, hdep2, hallow2⟩
  · rename_i parsed heq2
    rcases enqueueLinks_spec env cfg url depth parsed.links { st with rcache := rc, fetchLog := st.fetchLog ++ lg, results := st.results ++ [⟨url, depth, parsed.title, parsed.description, crawlSnippet (if parsed.description = "" then parsed.text else parsed.description) 300, status, parsed.links.length⟩] } with ⟨news, hq, hs, hl, hnd, hmem, hr, hf, hc, hi⟩
    refine ⟨[⟨url, depth, parsed.title, parsed.description, crawlSnippet (if parsed.description = "" then parsed.text else parsed.description) 300, status, parsed.links.length⟩], news, ?_, ?_, ?_, ?_, by simp, ?_, ?_, hnd, ?_⟩
    · rw [hr]
    · rw [hq]
    · rw [hs]
    · rw [hl]
    · intro r hrr
      rcases List.mem_singleton.mp hrr with rfl
      exact ⟨rfl, rfl, hdep2, hallow2⟩
    · intro hne1 hne2
      cases hne2
    · intro e he
      rcases hmem e he with ⟨h3, h4, h5⟩
      exact ⟨h3, fun hx => h4 (by simp [hx]), h5⟩

/-- What the seed loop does: it appends to the queue and the visited-set in
lockstep — every appended entry has depth 0, a URL that was not previously
seen and came from normalizing one of the seeds — and the appended URLs are
pairwise distinct. -/
theorem initSeeds_spec (env : CrawlEnv) (us : List String)
    (queue : List (String × Nat)) (seen origins : List String) :
    ∃ newqs : List (String × Nat),
      (initSeeds env us (queue, seen, origins)).1 = queue ++ newqs ∧
      (initSeeds env us (queue, seen, origins)).2.1 = seen ++ newqs.map Prod.fst ∧
      (newqs.map Prod.fst).Nodup ∧
      (∀ e ∈ newqs, e.2 = 0 ∧ e.1 ∉ seen ∧
        ∃ s ∈ us, normalize_url env.urljoin s none = some e.1) := by
  induction us generalizing queue seen origins with
  | nil => exact ⟨[], by simp [initSeeds]⟩
  | cons u us ih =>
    cases hn : normalize_url env.urljoin u none with
    | none =>
      rcases ih queue seen origins with ⟨newqs, h1, h2, h3, h4⟩
      refine ⟨newqs, ?_, ?_, h3, ?_⟩
      · simpa [initSeeds, hn] using h1
      · simpa [initSeeds, hn] using h2
      · intro e he
        rcases h4 e he with ⟨ha, hb, s, hs, hns⟩
        exact ⟨ha, hb, s, List.mem_cons_of_mem u hs, hns⟩
    | some n =>
      by_cases h1 : n = "" ∨ n ∈ seen
      · rcases ih queue seen origins with ⟨newqs, ha1, ha2, ha3, ha4⟩
        refine ⟨newqs, ?_, ?_, ha3, ?_⟩
        · simpa [initSeeds, hn, if_pos h1] using ha1
        · simpa [initSeeds, hn, if_pos h1] using ha2
        · intro e he
          rcases ha4 e he with ⟨hb1, hb2, s, hs, hns⟩
          exact ⟨hb1, hb2, s, List.mem_cons_of_mem u hs, hns⟩
      · rcases ih (queue ++ [(n, 0)]) (seen ++ [n]) (setAdd origins (pyLower ((((urlparseModel n).getD default).scheme) ++ "://" ++ (((urlparseModel n).getD default).netloc)))) with ⟨newqs, ha1, ha2, ha3, ha4⟩
        refine ⟨(n, 0) :: newqs, ?_, ?_, ?_, ?_⟩
        · rw [show initSeeds env (u :: us) (queue, seen, origins) = initSeeds env us (queue ++ [(n, 0)], seen ++ [n], setAdd origins (pyLower ((((urlparseModel n).getD default).scheme) ++ "://" ++ (((urlparseModel n).getD default).netloc)))) from by simp [initSeeds, hn, if_neg h1]]
          rw [ha1]
          simp
        · rw [show initSeeds env (u :: us) (queue, seen, origins) = initSeeds env us (queue ++ [(n, 0)], seen ++ [n], setAdd origins (pyLower ((((urlparseModel n).getD default).scheme) ++ "://" ++ (((urlparseModel n).getD default).netloc)))) from by simp [initSeeds, hn, if_neg h1]]
          rw [ha2]
          simp
        · simp only [List.map_cons]
          refine List.nodup_cons.mpr ⟨?_, ha3⟩
          intro hmemn
          rcases List.mem_map.mp hmemn with ⟨e, he, hfst⟩
          rcases ha4 e he with ⟨-, hnotin, -⟩
          exact hnotin (by simp [hfst])
        · intro e he0
          rcases List.mem_cons.mp he0 with rfl | he
          · exact ⟨rfl, fun hx => h1 (Or.inr hx), u, List.mem_cons_self u us, hn⟩
          · rcases ha4 e he with ⟨hb1, hb2, s, hs, hns⟩
            exact ⟨hb1, fun hx => hb2 (by simp [hx]), s, List.mem_cons_of_mem u hs, hns⟩

/-- `crawlLoop_preserves`, restated with the dequeued head and the remaining
queue made explicit. -/
theorem crawlLoop_preserves2 (env : CrawlEnv) (cfg : CrawlCfg) (P : CrawlState → Prop)
    (hbody : ∀ s : CrawlState, ∀ u0 : String, ∀ d0 : Nat, ∀ rest : List (String × Nat),
      s.queue = (u0, d0) :: rest → ¬(cfg.max_pages ≤ s.results.length) → P s →
      P (crawlBody env cfg u0 d0 { s with queue := rest, iter := s.iter + 1 })) :
    ∀ st, P st → P (crawlLoop env cfg st) := by
  refine crawlLoop_preserves env cfg P ?_
  intro s hq hp hP
  cases hqe : s.queue with
  | nil => exact absurd hqe hq
  | cons hd0 rest =>
    obtain ⟨u0, d0⟩ := hd0
    have hb := hbody s u0 d0 rest hqe hp hP
    simpa using hb

/-- The page budget is an invariant of the loop. -/
theorem crawlLoop_results_le (env : CrawlEnv) (cfg : CrawlCfg) (st : CrawlState)
    (h : st.results.length ≤ cfg.max_pages) :
    (crawlLoop env cfg st).results.length ≤ cfg.max_pages := by
  refine crawlLoop_preserves2 env cfg (fun s => s.results.length ≤ cfg.max_pages) ?_ st h
  intro s u0 d0 rest hqe hp hP
  rcases crawlBody_spec env cfg u0 d0 { s with queue := rest, iter := s.iter + 1 } with ⟨added, news, hres, -, -, -, hlen, -, -, -, -⟩
  have hres2 : (crawlBody env cfg u0 d0 { s with queue := rest, iter := s.iter + 1 }).results = s.results ++ added := hres
  rw [hres2]
  simp only [List.length_append]
  omega

/-- The depth bound is an invariant of the loop. -/
theorem crawlLoop_depth_le (env : CrawlEnv) (cfg : CrawlCfg) (st : CrawlState)
    (h : ∀ r ∈ st.results, r.depth ≤ cfg.max_depth) :
    ∀ r ∈ (crawlLoop env cfg st).results, r.depth ≤ cfg.max_depth := by
  refine crawlLoop_preserves2 env cfg (fun s => ∀ r ∈ s.results, r.depth ≤ cfg.max_depth) ?_ st h
  intro s u0 d0 rest hqe hp hP
  rcases crawlBody_spec env cfg u0 d0 { s with queue := rest, iter := s.iter + 1 } with ⟨added, news, hres, -, -, -, -, hmem, -, -, -⟩
  have hres2 : (crawlBody env cfg u0 d0 { s with queue := rest, iter := s.iter + 1 }).results = s.results ++ added := hres
  intro r hr
  rw [hres2] at hr
  rcases List.mem_append.mp hr with h1 | h2
  · exact hP r h1
  · rcases hmem r h2 with ⟨-, hd, hle, -⟩
    rw [hd]
    exact hle

/-- A frontier entry deeper than the depth limit is discarded by the body
without touching anything: no fetch, no result, no state change. -/
theorem crawlBody_depth_skip (env : CrawlEnv) (cfg : CrawlCfg) (url : String)
    (depth : Nat) (st : CrawlState) (hd : cfg.max_depth < depth) :
    crawlBody env cfg url depth st = st := by
  unfold crawlBody
  rw [if_pos hd]

/-- The dedup invariant carried through the loop: the URLs of the results and
of the frontier are pairwise distinct, and every one of them is in the
visited-set. -/
def InvC2 (st : CrawlState) : Prop :=
  (st.results.map CrawlResult.url ++ st.queue.map Prod.fst).Nodup ∧
  ∀ u ∈ st.results.map CrawlResult.url ++ st.queue.map Prod.fst, u ∈ st.seen

/-- One loop body preserves the dedup invariant. -/
theorem crawlLoop_InvC2 (env : CrawlEnv) (cfg : CrawlCfg) :
    ∀ st, InvC2 st → InvC2 (crawlLoop env cfg st) := by
  refine crawlLoop_preserves2 env cfg InvC2 ?_
  intro s u0 d0 rest hqe hp hP
  obtain ⟨hnd, hsub⟩ := hP
  rcases crawlBody_spec env cfg u0 d0 { s with queue := rest, iter := s.iter + 1 } with ⟨added, news, hres0, hque0, hseen0, -, hlen, hmem, himp, hndnews, hnews0⟩
  have hres : (crawlBody env cfg u0 d0 { s with queue := rest, iter := s.iter + 1 }).results = s.results ++ added := hres0
  have hque : (crawlBody env cfg u0 d0 { s with queue := rest, iter := s.iter + 1 }).queue = rest ++ news := hque0
  have hseen : (crawlBody env cfg u0 d0 { s with queue := rest, iter := s.iter + 1 }).seen = s.seen ++ news.map Prod.fst := hseen0
  have hnews : ∀ e ∈ news, e.1 ∉ s.seen := fun e he => ((hnews0 e he).2.1)
  rw [hqe] at hnd hsub
  simp only [List.map_cons] at hnd hsub
  cases added with
  | nil =>
    have hnewsnil : news = [] := by
      by_contra hne
      exact (himp hne) rfl
    constructor
    · rw [hres, hque, hnewsnil]
      simp only [List.append_nil]
      have hsl : List.Sublist (s.results.map CrawlResult.url ++ rest.map Prod.fst) (s.results.map CrawlResult.url ++ u0 :: rest.map Prod.fst) := List.Sublist.append_left (List.sublist_cons_self _ _) _
      exact hnd.sublist hsl
    · intro u hu
      rw [hres, hque, hnewsnil] at hu
      rw [hseen, hnewsnil]
      simp only [List.append_nil] at hu ⊢
      simp only [List.map_nil, List.append_nil]
      rcases List.mem_append.mp hu with h1 | h2
      · exact hsub u (List.mem_append_left _ h1)
      · exact hsub u (List.mem_append_right _ (List.mem_cons_of_mem _ h2))
  | cons r tl =>
    cases tl with
    | cons r2 tl2 => simp at hlen
    | nil =>
      have hrurl : r.url = u0 := (hmem r (List.mem_singleton_self r)).1
      have hcomb : (s.results ++ [r]).map CrawlResult.url ++ (rest ++ news).map Prod.fst = (s.results.map CrawlResult.url ++ u0 :: rest.map Prod.fst) ++ news.map Prod.fst := by
        simp [hrurl]
      constructor
      · rw [hres, hque, hcomb]
        rw [List.nodup_append]
        refine ⟨hnd, hndnews, ?_⟩
        intro a ha han
        rcases List.mem_map.mp han with ⟨e, he, rfl⟩
        exact hnews e he (hsub e.1 ha)
      · intro u hu
        rw [hres, hque] at hu
        rw [hcomb] at hu
        rw [hseen]
        rcases List.mem_append.mp hu with h1 | h2
        · exact List.mem_append_left _ (hsub u h1)
        · exact List.mem_append_right _ h2

/-- A list whose elements are all equal is (≤)-pairwise ordered. -/
theorem pairwiseLeOfConst {c : Nat} : ∀ {l : List Nat}, (∀ x ∈ l, x = c) → l.Pairwise (· ≤ ·) := by
  intro l
  induction l with
  | nil => intro _; exact List.Pairwise.nil
  | cons a t ih =>
    intro h
    refine List.Pairwise.cons ?_ (ih fun x hx => h x (List.mem_cons_of_mem a hx))
    intro b hb
    rw [h a (List.mem_cons_self a t), h b (List.mem_cons_of_mem a hb)]

/-- The breadth-first ordering invariant: the depths of the results followed
by the depths of the frontier form a nondecreasing sequence, and the frontier
depths stay within one of the head's depth. -/
def InvC8 (st : CrawlState) : Prop :=
  List.Pairwise (· ≤ ·) (st.results.map CrawlResult.depth ++ st.queue.map Prod.snd) ∧
  ∀ e ∈ st.queue.tail, e.2 ≤ (st.queue.headD ("", 0)).2 + 1

/-- One loop body preserves the breadth-first ordering invariant. -/
theorem crawlLoop_InvC8 (env : CrawlEnv) (cfg : CrawlCfg) :
    ∀ st, InvC8 st → InvC8 (crawlLoop env cfg st) := by
  refine crawlLoop_preserves2 env cfg InvC8 ?_
  intro s u0 d0 rest hqe hp hP
  obtain ⟨hpw, hsp⟩ := hP
  rcases crawlBody_spec env cfg u0 d0 { s with queue := rest, iter := s.iter + 1 } with ⟨added, news, hres0, hque0, -, -, hlen, hmem, -, -, hnews0⟩
  have hres : (crawlBody env cfg u0 d0 { s with queue := rest, iter := s.iter + 1 }).results = s.results ++ added := hres0
  have hque : (crawlBody env cfg u0 d0 { s with queue := rest, iter := s.iter + 1 }).queue = rest ++ news := hque0
  have hnewsd : ∀ e ∈ news, e.2 = d0 + 1 := fun e he => (hnews0 e he).1
  have haddedd : ∀ r ∈ added, r.depth = d0 := fun r hr => ((hmem r hr).2.1)
  rw [hqe] at hpw hsp
  simp only [List.map_cons] at hpw
  simp only [List.tail_cons, List.headD_cons] at hsp
  rw [List.pairwise_append] at hpw
  obtain ⟨hpwR, hpwQ, hcross⟩ := hpw
  rw [List.pairwise_cons] at hpwQ
  obtain ⟨hd0le, hpwRest⟩ := hpwQ
  have hRled0 : ∀ x ∈ s.results.map CrawlResult.depth, x ≤ d0 := fun x hx => hcross x hx d0 (List.mem_cons_self _ _)
  constructor
  · rw [hres, hque]
    simp only [List.map_append]
    rw [List.pairwise_append]
    refine ⟨?_, ?_, ?_⟩
    · rw [List.pairwise_append]
      refine ⟨hpwR, ?_, ?_⟩
      · exact pairwiseLeOfConst (fun x hx => by rcases List.mem_map.mp hx with ⟨r, hr, rfl⟩; exact haddedd r hr)
      · intro x hx y hy
        rcases List.mem_map.mp hy with ⟨r, hr, rfl⟩
        rw [haddedd r hr]
        exact hRled0 x hx
    · rw [List.pairwise_append]
      refine ⟨hpwRest, ?_, ?_⟩
      · exact pairwiseLeOfConst (fun x hx => by rcases List.mem_map.mp hx with ⟨e, he, rfl⟩; exact hnewsd e he)
      · intro x hx y hy
        rcases List.mem_map.mp hx with ⟨e, he, rfl⟩
        rcases List.mem_map.mp hy with ⟨e2, he2, rfl⟩
        rw [hnewsd e2 he2]
        exact hsp e he
    · intro x hx y hy
      rcases List.mem_append.mp hx with hx1 | hx2
      · rcases List.mem_append.mp hy with hy1 | hy2
        · exact hcross x hx1 y (List.mem_cons_of_mem _ hy1)
        · rcases List.mem_map.mp hy2 with ⟨e, he, rfl⟩
          rw [hnewsd e he]
          exact le_trans (hRled0 x hx1) (Nat.le_succ _)
      · rcases List.mem_map.mp hx2 with ⟨r, hr, rfl⟩
        rw [haddedd r hr]
        rcases List.mem_append.mp hy with hy1 | hy2
        · exact hd0le y hy1
        · rcases List.mem_map.mp hy2 with ⟨e, he, rfl⟩
          rw [hnewsd e he]
          exact Nat.le_succ _
  · rw [hque]
    cases rest with
    | nil =>
      simp only [List.nil_append]
      cases news with
      | nil =>
        intro e he
        simp at he
      | cons n0 ntl =>
        simp only [List.tail_cons, List.headD_cons]
        intro e he
        rw [hnewsd e (List.mem_cons_of_mem n0 he), hnewsd n0 (List.mem_cons_self _ _)]
        exact Nat.le_succ _
    | cons r1 rs =>
      simp only [List.cons_append, List.tail_cons, List.headD_cons]
      intro e he
      have hr1 : d0 ≤ r1.2 := hd0le r1.2 (List.mem_map_of_mem Prod.snd (List.mem_cons_self r1 rs))
      rcases List.mem_append.mp he with h1 | h2
      · exact le_trans (hsp e (List.mem_cons_of_mem r1 h1)) (Nat.succ_le_succ hr1)
      · rw [hnewsd e h2]
        exact Nat.succ_le_succ hr1

/-- Ghost-log invariant: every URL ever enqueued stays in the visited-set. -/
theorem crawlLoop_enqLog_seen (env : CrawlEnv) (cfg : CrawlCfg) :
    ∀ st, (∀ u ∈ st.enqLog, u ∈ st.seen) →
      ∀ u ∈ (crawlLoop env cfg st).enqLog, u ∈ (crawlLoop env cfg st).seen := by
  refine crawlLoop_preserves2 env cfg (fun s => ∀ u ∈ s.enqLog, u ∈ s.seen) ?_
  intro s u0 d0 rest hqe hp hP
  rcases crawlBody_spec env cfg u0 d0 { s with queue := rest, iter := s.iter + 1 } with ⟨added, news, -, -, hseen0, hlog0, -, -, -, -, -⟩
  have hseen : (crawlBody env cfg u0 d0 { s with queue := rest, iter := s.iter + 1 }).seen = s.seen ++ news.map Prod.fst := hseen0
  have hlog : (crawlBody env cfg u0 d0 { s with queue := rest, iter := s.iter + 1 }).enqLog = s.enqLog ++ news.map Prod.fst := hlog0
  intro u hu
  rw [hlog] at hu
  rw [hseen]
  rcases List.mem_append.mp hu with h1 | h2
  · exact List.mem_append_left _ (hP u h1)
  · exact List.mem_append_right _ h2

/-- Visited-set provenance: any property implied by passing the origin filter
and holding of the initial visited-set holds of every visited-set member. -/
theorem crawlLoop_seen_from (env : CrawlEnv) (cfg : CrawlCfg) (Q : String → Prop)
    (hQ : ∀ u, allow_domain u (effectiveAllowed cfg) = true → Q u) :
    ∀ st, (∀ u ∈ st.seen, Q u) → ∀ u ∈ (crawlLoop env cfg st).seen, Q u := by
  refine crawlLoop_preserves2 env cfg (fun s => ∀ u ∈ s.seen, Q u) ?_
  intro s u0 d0 rest hqe hp hP
  rcases crawlBody_spec env cfg u0 d0 { s with queue := rest, iter := s.iter + 1 } with ⟨added, news, -, -, hseen0, -, -, -, -, -, hnews0⟩
  have hseen : (crawlBody env cfg u0 d0 { s with queue := rest, iter := s.iter + 1 }).seen = s.seen ++ news.map Prod.fst := hseen0
  intro u hu
  rw [hseen] at hu
  rcases List.mem_append.mp hu with h1 | h2
  · exact hP u h1
  · rcases List.mem_map.mp h2 with ⟨e, he, rfl⟩
    exact hQ e.1 ((hnews0 e he).2.2)

/-- When no seed normalizes, the seed loop leaves its accumulator
untouched. -/
theorem initSeeds_none (env : CrawlEnv) (us : List String)
    (h : ∀ u ∈ us, normalize_url env.urljoin u none = none)
    (acc : List (String × Nat) × List String × List String) :
    initSeeds env us acc = acc := by
  induction us generalizing acc with
  | nil => rfl
  | cons u us ih =>
    obtain ⟨q, sn, og⟩ := acc
    have hstep : initSeeds env (u :: us) (q, sn, og) = initSeeds env us (q, sn, og) := by
      simp [initSeeds, h u (List.mem_cons_self _ _)]
    rw [hstep]
    exact ih (fun v hv => h v (List.mem_cons_of_mem _ hv)) _

/-- The loop does nothing on an empty frontier. -/
theorem crawlLoop_nil (env : CrawlEnv) (cfg : CrawlCfg) (st : CrawlState)
    (h : st.queue = []) : crawlLoop env cfg st = st := by
  rw [crawlLoop.eq_def, if_pos h]

/-! ### The claims -/

/-- An environment in which every robots.txt fetch raises (e.g. a connection
error); the rule oracle would allow everything, but is never reached. -/
def robotsFetchFailEnv : CrawlEnv :=
  { pageGet := fun _ _ => none, robotsGet := fun _ _ _ => none,
    robotsRules := fun _ _ _ => true, parseHtml := fun _ _ => Except.error "",
    urljoin := fun b u => b ++ u, timeOk := fun _ => true }

/-- An environment in which the robots.txt fetch returns 404 (no robots.txt
present); again the rule oracle would allow everything. -/
def robots404Env : CrawlEnv :=
  { robotsFetchFailEnv with robotsGet := fun _ _ _ => some (404, "not found") }

/-- C1: the claim (and the source's own docstring and comments) says
`can_fetch` fails open — any robots.txt fetch failure or non-200 status is
treated as "allow".  The code does the opposite: in both cases the
`RobotFileParser` is left un-`parse`d, and the stdlib `can_fetch` returns
`False` for a parser whose `last_checked` was never set, so the URL is
denied.  This theorem evaluates the embedded code on both failing inputs and
shows it returns `false` where the claim requires `true`. -/
theorem c1_robots_failure_denies :
    (can_fetch robotsFetchFailEnv [] "http://example.com/page" CRAWLER_USER_AGENT 10).1 = false ∧
    (can_fetch robots404Env [] "http://example.com/page" CRAWLER_USER_AGENT 10).1 = false := by
  exact ⟨by decide, by decide⟩

/-- C2: in every run of `run_crawl` — for any oracles, settings, robots-cache
start state, seeds and limits — the returned result list contains no
normalized URL twice: the `url` fields are pairwise distinct. -/
theorem c2_dedup (env : CrawlEnv) (s : Settings) (rc : List (String × RobotFileParser))
    (seeds : List String) (mp md ts : Option Nat) (soo : Bool)
    (ao : Option (List String)) (rd : Option ℚ) :
    ((run_crawl env s rc seeds mp md ts soo ao rd).map CrawlResult.url).Nodup := by
  unfold run_crawl run_crawlS
  simp only []
  rcases initSeeds_spec env seeds [] [] [] with ⟨nq, h1, h2, h3, h4⟩
  have hinit : InvC2 { queue := (initSeeds env seeds ([], [], [])).1, seen := (initSeeds env seeds ([], [], [])).2.1, results := [], rcache := rc, fetchLog := [], enqLog := (initSeeds env seeds ([], [], [])).2.1, iter := 0 } := by
    constructor
    · simp only [List.map_nil, List.nil_append]
      rw [h1]
      simpa using h3
    · intro u hu
      simp only [List.map_nil, List.nil_append] at hu
      rw [h1] at hu
      simp only [List.nil_append] at hu
      rw [h2]
      simpa using hu
  exact ((crawlLoop_InvC2 env _ _ hinit).1).sublist (List.sublist_append_left _ _)

/-- C3: every result of every run respects the resolved depth limit, and a
dequeued frontier entry whose depth exceeds `max_depth` is discarded by the
loop body without fetching and without producing a result (the state is
returned unchanged). -/
theorem c3_depth_bound (env : CrawlEnv) (s : Settings) (rc : List (String × RobotFileParser))
    (seeds : List String) (mp md ts : Option Nat) (soo : Bool)
    (ao : Option (List String)) (rd : Option ℚ)
    (envb : CrawlEnv) (cfgb : CrawlCfg) (urlb : String) (depthb : Nat) (stb : CrawlState)
    (hd : cfgb.max_depth < depthb) :
    ((run_crawl env s rc seeds mp md ts soo ao rd).all (fun r => r.depth ≤ md.getD s.crawl_max_depth.toNat) = true) ∧
    crawlBody envb cfgb urlb depthb stb = stb := by
  refine ⟨?_, crawlBody_depth_skip envb cfgb urlb depthb stb hd⟩
  rw [List.all_eq_true]
  unfold run_crawl run_crawlS
  simp only []
  intro r hr
  rw [decide_eq_true_eq]
  refine crawlLoop_depth_le env _ _ ?_ r hr
  intro r2 hr2
  simp at hr2

/-- C4: the length of every run's result list is bounded by the resolved
`max_pages` limit. -/
theorem c4_page_budget (env : CrawlEnv) (s : Settings) (rc : List (String × RobotFileParser))
    (seeds : List String) (mp md ts : Option Nat) (soo : Bool)
    (ao : Option (List String)) (rd : Option ℚ) :
    (run_crawl env s rc seeds mp md ts soo ao rd).length ≤ mp.getD s.crawl_max_pages.toNat := by
  unfold run_crawl run_crawlS
  simp only []
  refine crawlLoop_results_le env _ _ ?_
  simp

/-- A one-entry scheduler configuration and an already-popped state, used to
instantiate the universally quantified claim theorems at concrete inputs. -/
def sampleCfg : CrawlCfg :=
  { max_pages := 50, max_depth := 0, timeout_seconds := 60, fetch_timeout := 15,
    same_origin_only := true, allowed_origins := none, request_delay := 1,
    seed_origins := ["http://a.test"] }

def sampleSt : CrawlState :=
  { queue := [], seen := [], results := [], rcache := [], fetchLog := [], enqLog := [], iter := 1 }

/-- Witness for C3 at a concrete input: the depth hypothesis `0 < 1` is
discharged by computation and the theorem is applied. -/
theorem c3_depth_bound_witness :
    sampleCfg.max_depth < 1 ∧
    (((run_crawl robotsFetchFailEnv defaultSettings [] [] none none none true none none).all (fun r => r.depth ≤ (none : Option Nat).getD defaultSettings.crawl_max_depth.toNat) = true) ∧
      crawlBody robotsFetchFailEnv sampleCfg "http://a.test/x" 1 sampleSt = sampleSt) := by
  exact ⟨by decide, c3_depth_bound robotsFetchFailEnv defaultSettings [] [] none none none true none none robotsFetchFailEnv sampleCfg "http://a.test/x" 1 sampleSt (by decide)⟩

/-- An environment whose robots.txt (fetched with status 200) disallows every
path containing `/private/`; the page oracle would raise if it were ever
consulted, which lets the theorems below verify that no page GET happens. -/
def robotsDenyEnv : CrawlEnv :=
  { pageGet := fun _ _ => none,
    robotsGet := fun _ _ _ => some (200, "User-agent: *" ++ "\n" ++ "Disallow: /private/"),
    robotsRules := fun _ _ url => !(strContainsSub url "/private/"),
    parseHtml := fun _ _ => Except.error "unused",
    urljoin := fun b u => if strStartsWith u "http" then u else b ++ u,
    timeOk := fun _ => true }

/-- C5 counterexample: with a robots.txt disallowing `/private/`, a run
seeded with `http://a.test/private/page` issues no page GET (the ghost fetch
log stays empty) — but, contrary to the claim, the returned result list is
not free of that URL: it contains a sentinel entry for it (status 0, snippet
`[HTTP 0]`). -/
theorem c5_counterexample :
    ((run_crawlS robotsDenyEnv defaultSettings [] ["http://a.test/private/page"] none none none true none none).1.results = [⟨"http://a.test/private/page", 0, "", "", "[HTTP 0]", 0, 0⟩]) ∧
    ((run_crawlS robotsDenyEnv defaultSettings [] ["http://a.test/private/page"] none none none true none none).1.fetchLog = []) := by
  unfold run_crawlS
  simp only []
  rw [crawlLoop_eq_ofF robotsDenyEnv _ 2 _ (by decide)]
  exact ⟨by decide, by decide⟩

/-- C5 as amended: when robots.txt denies a dequeued URL that passed the
depth and origin gates, the body issues no page GET and raises nothing, but
it does append a sentinel `CrawlResult` (status 0, snippet `[HTTP 0]`) for
that URL, which counts toward `max_pages`; the frontier is untouched. -/
theorem c5_amended (env : CrawlEnv) (cfg : CrawlCfg) (url : String) (depth : Nat)
    (st : CrawlState)
    (hd : ¬(cfg.max_depth < depth))
    (ha : allow_domain url (effectiveAllowed cfg) = true)
    (hrob : (can_fetch env st.rcache url CRAWLER_USER_AGENT (pyMinInt 10 cfg.fetch_timeout).toNat).1 = false) :
    (crawlBody env cfg url depth st).results = st.results ++ [⟨url, depth, "", "", "[HTTP 0]", 0, 0⟩] ∧
    (crawlBody env cfg url depth st).fetchLog = st.fetchLog ∧
    (crawlBody env cfg url depth st).queue = st.queue := by
  have hf : fetch env st.rcache url cfg.fetch_timeout true CRAWLER_USER_AGENT = (Except.ok (0, "", ""), (can_fetch env st.rcache url CRAWLER_USER_AGENT (pyMinInt 10 cfg.fetch_timeout).toNat).2, []) := by
    unfold fetch
    rw [if_pos rfl]
    rw [if_pos hrob]
  unfold crawlBody
  rw [if_neg hd, if_neg (by simp [ha]), hf]
  refine ⟨?_, by simp, by simp⟩
  simp
  decide

/-- Witness for C5's amended theorem at a concrete input: the depth, origin
and robots-denial hypotheses are discharged by computation. -/
theorem c5_amended_witness :
    (¬(sampleCfg.max_depth < 0)) ∧
    allow_domain "http://a.test/private/page" (effectiveAllowed sampleCfg) = true ∧
    (can_fetch robotsDenyEnv sampleSt.rcache "http://a.test/private/page" CRAWLER_USER_AGENT (pyMinInt 10 sampleCfg.fetch_timeout).toNat).1 = false ∧
    (crawlBody robotsDenyEnv sampleCfg "http://a.test/private/page" 0 sampleSt).results = sampleSt.results ++ [⟨"http://a.test/private/page", 0, "", "", "[HTTP 0]", 0, 0⟩] := by
  exact ⟨by decide, by decide, by decide, (c5_amended robotsDenyEnv sampleCfg "http://a.test/private/page" 0 sampleSt (by decide) (by decide) (by decide)).1⟩

/-- C6 counterexample: the claim says callers of `crawl_website` cannot push
the effective max-pages limit beyond 500, but a caller passing
`max_pages = 501` gets exactly 501 used for the run. -/
theorem c6_counterexample :
    crawl_website_max_pages defaultSettings 501 = 501 ∧
    ¬(crawl_website_max_pages defaultSettings 501 ≤ 500) := by
  exact ⟨by decide, by decide⟩

/-- C6 as amended: the timeout and delay used by `crawl_website` runs always
come from the clamped configuration (`[5,300]` s and `[0,10]` s — the tool
never forwards caller values for them), and the max-pages/max-depth limits
fall back to the clamped configuration (`[1,500]`, `[1,20]`) only when the
caller passes a non-positive value; a positive caller value is used as-is and
is not clamped. -/
theorem c6_amended (s : Settings) (mp md : Int) :
    (5 ≤ s.crawl_timeout_seconds ∧ s.crawl_timeout_seconds ≤ 300) ∧
    (0 ≤ s.crawl_request_delay_seconds ∧ s.crawl_request_delay_seconds ≤ 10) ∧
    (mp ≤ 0 → 1 ≤ crawl_website_max_pages s mp ∧ crawl_website_max_pages s mp ≤ 500) ∧
    (0 < mp → crawl_website_max_pages s mp = mp) ∧
    (md ≤ 0 → 1 ≤ crawl_website_max_depth s md ∧ crawl_website_max_depth s md ≤ 20) ∧
    (0 < md → crawl_website_max_depth s md = md) := by
  refine ⟨?_, ?_, ?_, ?_, ?_, ?_⟩
  · unfold Settings.crawl_timeout_seconds pyMaxInt pyMinInt
    constructor <;> (split_ifs <;> omega)
  · cases hdel : s.crawlDelayEnv with
    | none =>
      unfold Settings.crawl_request_delay_seconds
      rw [hdel]
      norm_num
    | some q =>
      unfold Settings.crawl_request_delay_seconds pyMaxRat pyMinRat
      rw [hdel]
      constructor
      · show (0 : ℚ) ≤ if 0 < (if q < 10 then q else 10) then (if q < 10 then q else 10) else 0
        split_ifs <;> linarith
      · show (if 0 < (if q < 10 then q else 10) then (if q < 10 then q else 10) else 0 : ℚ) ≤ 10
        split_ifs <;> linarith
  · intro hmp
    unfold crawl_website_max_pages Settings.crawl_max_pages pyMaxInt pyMinInt
    split_ifs <;> omega
  · intro hmp
    unfold crawl_website_max_pages
    rw [if_pos hmp]
  · intro hmd
    unfold crawl_website_max_depth Settings.crawl_max_depth pyMaxInt pyMinInt
    split_ifs <;> omega
  · intro hmd
    unfold crawl_website_max_depth
    rw [if_pos hmd]

/-- Witness for C6's amended theorem at a concrete input (default settings,
caller arguments 0): the non-positivity hypotheses of the fallback clauses
are discharged by computation. -/
theorem c6_amended_witness :
    ((0 : Int) ≤ 0) ∧
    (1 ≤ crawl_website_max_pages defaultSettings 0 ∧ crawl_website_max_pages defaultSettings 0 ≤ 500) ∧
    (1 ≤ crawl_website_max_depth defaultSettings 0 ∧ crawl_website_max_depth defaultSettings 0 ≤ 20) := by
  refine ⟨by decide, (c6_amended defaultSettings 0 0).2.2.1 (by decide), (c6_amended defaultSettings 0 0).2.2.2.2.1 (by decide)⟩

/-- C7: normalization identifies `http://EXAMPLE.com/a/`, `http://example.com/a`
and `http://example.com/a#section` (case-folded host, stripped trailing
slash, stripped fragment), and rejects every URL whose parsed scheme is
neither `http` nor `https`. -/
theorem c7_normalize (join : String → String → String) (url : String)
    (hs : (urlparseModel url).all (fun p => !(p.scheme == "http" || p.scheme == "https")) = true) :
    normalize_url join "http://EXAMPLE.com/a/" none = some "http://example.com/a" ∧
    normalize_url join "http://example.com/a" none = some "http://example.com/a" ∧
    normalize_url join "http://example.com/a#section" none = some "http://example.com/a" ∧
    normalize_url join url none = none := by
  refine ⟨rfl, rfl, rfl, ?_⟩
  cases hm : urlparseModel url with
  | none => simp [normalize_url, hm]
  | some p =>
    rw [hm] at hs
    have hcond : ¬(p.scheme = "http" ∨ p.scheme = "https") := by
      intro hor
      rcases hor with h | h <;> simp [h] at hs
    simp [normalize_url, hm, hcond]

/-- Witness for C7 at a concrete input: the non-web scheme `ftp://x`. -/
theorem c7_normalize_witness :
    ((urlparseModel "ftp://x").all (fun p => !(p.scheme == "http" || p.scheme == "https")) = true) ∧
    normalize_url (fun _ u => u) "ftp://x" none = none := by
  exact ⟨by decide, (c7_normalize (fun _ u => u) "ftp://x" (by decide)).2.2.2⟩

/-- C8: in every run, the depths of the returned results are nondecreasing
along the list — every result at some depth precedes every result at a
greater depth, i.e. the list is in breadth-first order by depth. -/
theorem c8_bfs_order (env : CrawlEnv) (s : Settings) (rc : List (String × RobotFileParser))
    (seeds : List String) (mp md ts : Option Nat) (soo : Bool)
    (ao : Option (List String)) (rd : Option ℚ) :
    List.Pairwise (fun a b => a.depth ≤ b.depth) (run_crawl env s rc seeds mp md ts soo ao rd) := by
  unfold run_crawl run_crawlS
  simp only []
  rcases initSeeds_spec env seeds [] [] [] with ⟨nq, h1, h2, h3, h4⟩
  have hinit : InvC8 { queue := (initSeeds env seeds ([], [], [])).1, seen := (initSeeds env seeds ([], [], [])).2.1, results := [], rcache := rc, fetchLog := [], enqLog := (initSeeds env seeds ([], [], [])).2.1, iter := 0 } := by
    constructor
    · simp only [List.map_nil, List.nil_append]
      rw [h1]
      simp only [List.nil_append]
      refine pairwiseLeOfConst (c := 0) ?_
      intro x hx
      rcases List.mem_map.mp hx with ⟨e, he, rfl⟩
      exact (h4 e he).1
    · intro e he
      have hmem : e ∈ (initSeeds env seeds ([], [], [])).1 := List.mem_of_mem_tail he
      rw [h1] at hmem
      simp only [List.nil_append] at hmem
      rw [(h4 e hmem).1]
      exact Nat.zero_le _
  exact List.pairwise_map.mp ((List.pairwise_append.mp (crawlLoop_InvC8 env _ _ hinit).1).1)

/-- C9 counterexample: seeds that tokenize but all fail normalization are not
rejected and are not surfaced as a failure — `crawl_website "ftp://x"`
silently returns the ordinary success summary for an empty crawl, which is
not the rejection message. -/
theorem c9_counterexample :
    crawl_website robotsFetchFailEnv defaultSettings [] "ftp://x" 0 0 true = "Crawled 0 page(s)." ∧
    "Crawled 0 page(s)." ≠ "No valid seed URLs provided. Example: https://example.com" := by
  constructor
  · unfold crawl_website
    simp only []
    rw [if_neg (by decide)]
    have hrun : run_crawl robotsFetchFailEnv defaultSettings [] (splitSeeds "ftp://x") (some (crawl_website_max_pages defaultSettings 0).toNat) (some (crawl_website_max_depth defaultSettings 0).toNat) none true none none = [] := by
      unfold run_crawl run_crawlS
      simp only []
      rw [crawlLoop_eq_ofF robotsFetchFailEnv _ 1 _ (by decide)]
      decide
    rw [hrun]
    decide
  · decide

/-- C9 as amended: only a seed string with no tokens at all makes
`crawl_website` return the fixed rejection message (without running a crawl);
a run whose seeds all fail normalization is not a failure — `run_crawl`
returns the empty result list, with no page GET issued. -/
theorem c9_amended (env : CrawlEnv) (s : Settings) (rc : List (String × RobotFileParser))
    (seedstr : String) (seeds : List String) (mpi mdi : Int) (soo : Bool)
    (mp md ts : Option Nat) (ao : Option (List String)) (rd : Option ℚ)
    (hstr : splitSeeds seedstr = [])
    (hseeds : seeds.all (fun u => (normalize_url env.urljoin u none).isNone) = true) :
    crawl_website env s rc seedstr mpi mdi soo = "No valid seed URLs provided. Example: https://example.com" ∧
    run_crawl env s rc seeds mp md ts soo ao rd = [] ∧
    (run_crawlS env s rc seeds mp md ts soo ao rd).1.fetchLog = [] := by
  have hnone : ∀ u ∈ seeds, normalize_url env.urljoin u none = none := by
    rw [List.all_eq_true] at hseeds
    intro u hu
    have h := hseeds u hu
    rwa [Option.isNone_iff_eq_none] at h
  have hinit : initSeeds env seeds ([], [], []) = ([], [], []) := initSeeds_none env seeds hnone _
  refine ⟨?_, ?_, ?_⟩
  · unfold crawl_website
    simp only []
    rw [if_pos hstr]
  · unfold run_crawl run_crawlS
    simp only []
    rw [crawlLoop_nil env _ _ (by rw [hinit])]
  · unfold run_crawlS
    simp only []
    rw [crawlLoop_nil env _ _ (by rw [hinit])]

/-- Witness for C9's amended theorem at concrete inputs: an empty seed string
and the single unnormalizable seed `ftp://x`. -/
theorem c9_amended_witness :
    (splitSeeds "" = []) ∧
    (["ftp://x"].all (fun u => (normalize_url robotsFetchFailEnv.urljoin u none).isNone) = true) ∧
    (crawl_website robotsFetchFailEnv defaultSettings [] "" 0 0 true = "No valid seed URLs provided. Example: https://example.com" ∧
      run_crawl robotsFetchFailEnv defaultSettings [] ["ftp://x"] none none none true none none = []) := by
  have h := c9_amended robotsFetchFailEnv defaultSettings [] "" ["ftp://x"] 0 0 true none none none none none (by decide) (by decide)
  exact ⟨by decide, by decide, h.1, h.2.1⟩

/-- An environment whose only page, `http://a.test/`, links to
`http://a.test/b`; robots.txt allows everything. -/
def depthDropEnv : CrawlEnv :=
  { pageGet := fun u _ => if u = "http://a.test/" then some (200, "text/html", "<html>") else none,
    robotsGet := fun _ _ _ => some (200, ""),
    robotsRules := fun _ _ _ => true,
    parseHtml := fun _ _ => Except.ok ⟨"T", "D", "body text", ["http://a.test/b"]⟩,
    urljoin := fun b u => if strStartsWith u "http" then u else b ++ u,
    timeOk := fun _ => true }

/-- C10 counterexample: with `max_depth = 0`, the page `http://a.test/b` is
discovered from the seed, enqueued (the ghost enqueue log shows it), then
discarded at dequeue for exceeding the depth limit — it yields no result.
Contrary to the claim, it *was* added to the visited-set: it is in the final
`seen`, so a rediscovery would not be re-evaluated. -/
theorem c10_counterexample :
    "http://a.test/b" ∈ (run_crawlS depthDropEnv defaultSettings [] ["http://a.test/"] none (some 0) none true none none).1.seen ∧
    (run_crawlS depthDropEnv defaultSettings [] ["http://a.test/"] none (some 0) none true none none).1.results.map CrawlResult.url = ["http://a.test/"] ∧
    (run_crawlS depthDropEnv defaultSettings [] ["http://a.test/"] none (some 0) none true none none).1.enqLog = ["http://a.test/", "http://a.test/b"] := by
  unfold run_crawlS
  simp only []
  rw [crawlLoop_eq_ofF depthDropEnv _ 3 _ (by decide)]
  exact ⟨by decide, by decide, by decide⟩

/-- C10 as amended: deduplication is permanent for every *enqueued* URL,
fetched or not — every URL that was ever appended to the frontier (seeds and
links that passed normalization and the origin filter) is in the final
visited-set, so an entry later discarded at dequeue for depth or origin
reasons is not re-evaluated on rediscovery.  Only URLs rejected at
link-discovery time stay out of the visited-set: every visited-set member
either came from normalizing a seed or passed the origin filter. -/
theorem c10_amended (env : CrawlEnv) (s : Settings) (rc : List (String × RobotFileParser))
    (seeds : List String) (mp md ts : Option Nat) (soo : Bool)
    (ao : Option (List String)) (rd : Option ℚ) :
    ((run_crawlS env s rc seeds mp md ts soo ao rd).1.enqLog.all (fun u => decide (u ∈ (run_crawlS env s rc seeds mp md ts soo ao rd).1.seen)) = true) ∧
    ((run_crawlS env s rc seeds mp md ts soo ao rd).1.seen.all (fun u => decide (u ∈ seeds.filterMap (fun x => normalize_url env.urljoin x none)) || allow_domain u (effectiveAllowed (run_crawlS env s rc seeds mp md ts soo ao rd).2)) = true) := by
  have h1 : ∀ u ∈ (run_crawlS env s rc seeds mp md ts soo ao rd).1.enqLog, u ∈ (run_crawlS env s rc seeds mp md ts soo ao rd).1.seen := by
    unfold run_crawlS
    simp only []
    refine crawlLoop_enqLog_seen env _ _ ?_
    intro u hu
    exact hu
  have h2 : ∀ u ∈ (run_crawlS env s rc seeds mp md ts soo ao rd).1.seen, u ∈ seeds.filterMap (fun x => normalize_url env.urljoin x none) ∨ allow_domain u (effectiveAllowed (run_crawlS env s rc seeds mp md ts soo ao rd).2) = true := by
    unfold run_crawlS
    simp only []
    rcases initSeeds_spec env seeds [] [] [] with ⟨nq, hq1, hq2, hq3, hq4⟩
    refine crawlLoop_seen_from env _ _ (fun u h => Or.inr h) _ ?_
    intro u hu
    rw [hq2] at hu
    simp only [List.nil_append] at hu
    rcases List.mem_map.mp hu with ⟨e, he, rfl⟩
    rcases hq4 e he with ⟨-, -, sd, hsd, hns⟩
    exact Or.inl (List.mem_filterMap.mpr ⟨sd, hsd, hns⟩)
  constructor
  · rw [List.all_eq_true]
    intro u hu
    rw [decide_eq_true_eq]
    exact h1 u hu
  · rw [List.all_eq_true]
    intro u hu
    rcases h2 u hu with h | h
    · simp [h]
    · simp [h]
